import Mathlib

set_option maxHeartbeats 1000000

/-!
Shallow embedding of the document-to-audio citation pipeline implemented in
`my_app/pdf_processor/process.py`: the Chunker (`prepare_tts_chunks_with_citations`),
the Citation Resolver (`get_citation_at_timestamp`), the Segment Generator
(`generate_audio_streaming`) and the Pipeline Orchestrator (`run_full_pipeline`).

Python floats are modelled as rationals (`ℚ`); Python strings as Lean `String`
(`len` counts code points in both); Python's whitespace class is modelled with
`Char.isWhitespace` (all inputs of interest use ASCII whitespace, where the two
classes agree).  File-system and HTTP effects of the Segment Generator are
modelled by explicit state passing over a `GenState` record.
-/

/-- Python `str.strip()`: remove leading and trailing whitespace. -/
def pyStrip (s : String) : String :=
  (((s.toList.dropWhile Char.isWhitespace).reverse.dropWhile Char.isWhitespace).reverse).asString

/-- Python slicing `s[:n]` on a string (by code points). -/
def pyTake (n : Nat) (s : String) : String :=
  (s.toList.take n).asString

/-- Python `int()` applied to a float/rational: truncation toward zero,
i.e. T-division of the numerator by the denominator. -/
def pyInt (q : ℚ) : Int :=
  q.num.tdiv q.den

/-- Python list indexing `l[i]`, including negative indices;
`none` models an `IndexError`. -/
def pyGet {α : Type} (l : List α) (i : Int) : Option α :=
  if 0 ≤ i then l.get? i.toNat
  else if 0 ≤ (l.length : Int) + i then l.get? ((l.length : Int) + i).toNat else none

/-- A sentence terminator for the split regex `(?<=[.!?])\s+`. -/
def isSentenceEnd (c : Char) : Bool :=
  c = '.' || c = '!' || c = '?'

/-- Character-level engine of `re.split(r'(?<=[.!?])\s+', text)`: a maximal
whitespace run immediately preceded by `.`, `!` or `?` is a split point and is
consumed; any other character is kept in the current piece.  The `skipping`
flag is true while consuming such a run. -/
def splitAux : List Char → List Char → Bool → List (List Char)
  | [], _, true => [[]]
  | [], cur, false => [cur.reverse]
  | c :: rest, cur, true =>
    if c.isWhitespace then splitAux rest cur true
    else splitAux rest [c] false
  | c :: rest, cur, false =>
    if c.isWhitespace && (match cur with | p :: _ => isSentenceEnd p | [] => false) then
      cur.reverse :: splitAux rest [] true
    else splitAux rest (c :: cur) false

/-- `re.split(r'(?<=[.!?])\s+', block_text)` from Stage 2. -/
def splitSentences (s : String) : List String :=
  (splitAux s.toList [] false).map List.asString

/-- `metadata` of the raw extraction cache (Stage 1 output). -/
structure Metadata where
  title : String
  author : String
  source_filename : String
  total_pages : Nat
deriving Repr, DecidableEq, Inhabited

/-- One element of the `sentences` list of a chunk. -/
structure SentenceData where
  global_index : Nat
  sentence_in_block : Nat
  text : String
deriving Repr, DecidableEq, Inhabited

/-- One element of the `chunks` list of the citation manifest. -/
structure Chunk where
  chunk_id : Nat
  text : String
  page : Nat
  block_index : Nat
  sentences : List SentenceData
  start_time : ℚ
  duration_seconds : ℚ
  end_time : ℚ
deriving Repr, DecidableEq, Inhabited

/-- One element of the raw cache's `content` list: a page with its
(already extracted) plain text blocks. -/
structure PageData where
  page_number : Nat
  text_blocks : List String
deriving Repr, DecidableEq, Inhabited

/-- The `processing` summary block of the citation manifest. -/
structure Processing where
  total_chunks : Nat
  total_sentences : Nat
  total_estimated_duration_seconds : ℚ
deriving Repr, DecidableEq, Inhabited

/-- The persisted CitationManifest (`*_citation_ready.json`). -/
structure Manifest where
  metadata : Metadata
  book_id : String
  processing : Processing
  chunks : List Chunk
deriving Repr, DecidableEq, Inhabited

/-- `AVG_CHARS_PER_SECOND = 14` from Stage 2. -/
def AVG_CHARS_PER_SECOND : ℚ := 14

/-- `est_duration = len(chunk_text) / AVG_CHARS_PER_SECOND`. -/
def estDuration (text : String) : ℚ :=
  (text.length : ℚ) / AVG_CHARS_PER_SECOND

/-- The mutable state threaded through Stage 2's page/block loops:
`tts_chunks`, `global_sentence_index`, `estimated_total_time`. -/
structure ChunkState where
  tts_chunks : List Chunk
  global_sentence_index : Nat
  estimated_total_time : ℚ
deriving Repr, DecidableEq, Inhabited

/-- The per-block accumulator of Stage 2: `current_chunk`,
`current_chunk_chars`, `chunk_sentences_data`. -/
structure BlockAcc where
  current_chunk : List String
  current_chunk_chars : Nat
  chunk_sentences_data : List SentenceData
deriving Repr, DecidableEq, Inhabited

/-- Emission of a finished chunk in Stage 2: append a chunk record built from
the accumulator and advance `estimated_total_time` by the estimated duration. -/
def closeChunk (page blockIndex : Nat) (cs : ChunkState) (acc : BlockAcc) : ChunkState :=
  let chunk_text := String.intercalate " " acc.current_chunk
  let est := estDuration chunk_text
  { tts_chunks := cs.tts_chunks ++ [{
      chunk_id := cs.tts_chunks.length
      text := chunk_text
      page := page
      block_index := blockIndex + 1
      sentences := acc.chunk_sentences_data
      start_time := cs.estimated_total_time
      duration_seconds := est
      end_time := cs.estimated_total_time + est }]
    global_sentence_index := cs.global_sentence_index
    estimated_total_time := cs.estimated_total_time + est }

/-- The body of Stage 2's `for sentence in sentences:` loop: strip, skip empty,
then either greedily extend the current chunk or close it and start a new one. -/
def stepSentence (maxChars page blockIndex : Nat) (st : ChunkState × BlockAcc)
    (s : String) : ChunkState × BlockAcc :=
  let sentence := pyStrip s
  if sentence = "" then st
  else
    let cs := st.1
    let acc := st.2
    let sentence_chars := sentence.length + 1
    if acc.current_chunk_chars + sentence_chars < maxChars then
      ({ cs with global_sentence_index := cs.global_sentence_index + 1 },
       { current_chunk := acc.current_chunk ++ [sentence]
         current_chunk_chars := acc.current_chunk_chars + sentence_chars
         chunk_sentences_data := acc.chunk_sentences_data ++ [{
           global_index := cs.global_sentence_index
           sentence_in_block := acc.chunk_sentences_data.length
           text := sentence }] })
    else
      let cs' := if acc.current_chunk ≠ [] then closeChunk page blockIndex cs acc else cs
      ({ cs' with global_sentence_index := cs.global_sentence_index + 1 },
       { current_chunk := [sentence]
         current_chunk_chars := sentence_chars
         chunk_sentences_data := [{
           global_index := cs.global_sentence_index
           sentence_in_block := 0
           text := sentence }] })

/-- Stage 2's handling of one text block: fold the sentence loop over the
block's sentences starting from a fresh accumulator, then flush the trailing
chunk (`if current_chunk:` after the loop). -/
def processBlock (maxChars page blockIndex : Nat) (sentences : List String)
    (cs : ChunkState) : ChunkState :=
  let r := sentences.foldl (stepSentence maxChars page blockIndex) (cs, ⟨[], 0, []⟩)
  if r.2.current_chunk ≠ [] then closeChunk page blockIndex r.1 r.2 else r.1

/-- Stage 2's page/block double loop over `data['content']`. -/
def prepareChunks (maxChars : Nat) (content : List PageData) : ChunkState :=
  content.foldl
    (fun cs pd =>
      (pd.text_blocks.enum).foldl
        (fun cs bi => processBlock maxChars pd.page_number bi.1 (splitSentences bi.2) cs)
        cs)
    ⟨[], 0, 0⟩

/-- `re.sub(r'[^\w\s-]', '', title).strip().replace(' ', '_')`: the sanitized
book id.  Python's `\w` is modelled by `Char.isAlphanum || c = '_'` (the
inputs of interest are ASCII, where the classes agree). -/
def sanitizeBookId (title : String) : String :=
  (pyStrip ((title.toList.filter
      (fun c => c.isAlphanum || c = '_' || c.isWhitespace || c = '-')).asString)).map
    (fun c => if c = ' ' then '_' else c)

/-- `prepare_tts_chunks_with_citations` (Stage 2), as the pure function from
parsed raw-cache data to the citation manifest it writes.  `max_chars` keeps
its default of 400 at call sites. -/
def prepare_tts_chunks_with_citations (maxChars : Nat) (metadata : Metadata)
    (content : List PageData) : Manifest :=
  let st := prepareChunks maxChars content
  { metadata := metadata
    book_id := sanitizeBookId metadata.title
    processing := {
      total_chunks := st.tts_chunks.length
      total_sentences := st.global_sentence_index
      total_estimated_duration_seconds := st.estimated_total_time }
    chunks := st.tts_chunks }

/-- The citation record returned by `get_citation_at_timestamp` on a match. -/
structure Citation where
  citation : String
  timestamp : String
  page : Nat
  block : Nat
  sentence_in_block : Nat
  sentence_text : String
deriving Repr, DecidableEq, Inhabited

/-- Zero-padding of `f"{int(s):02d}"` for the seconds field. -/
def pad2 (n : Int) : String :=
  if 0 ≤ n ∧ n < 10 then "0" ++ toString n else toString n

/-- `f"{int(t // 60)}:{int(t % 60):02d}"`: Python float floor-division and
modulo, then truncation (the modulo result lies in `[0, 60)`, where truncation
is `Int.floor`). -/
def formatTimestamp (t : ℚ) : String :=
  let m : Int := Int.floor (t / 60)
  toString m ++ ":" ++ pad2 (Int.floor (t - 60 * m))

/-- The citation dictionary built by `get_citation_at_timestamp` for a matched
chunk and resolved sentence. -/
def mkCitation (md : Metadata) (chunk : Chunk) (s : SentenceData) (t : ℚ) : Citation :=
  { citation := md.author ++ " - " ++ md.title ++ ", p." ++ toString chunk.page
      ++ ", Â¶" ++ toString chunk.block_index ++ ", sent." ++ toString (s.sentence_in_block + 1)
    timestamp := formatTimestamp t
    page := chunk.page
    block := chunk.block_index
    sentence_in_block := s.sentence_in_block + 1
    sentence_text := if s.text.length > 100 then pyTake 100 s.text ++ "..." else s.text }

/-- The `for chunk in data['chunks']:` scan of `get_citation_at_timestamp`:
first chunk whose half-open interval contains the timestamp wins;
`.ok none` is the fall-through `return None`; `.error ()` models the
`IndexError` Python would raise on `chunk['sentences'][-1]` for a chunk with
an empty `sentences` list. -/
def citationScan (md : Metadata) : List Chunk → ℚ → Except Unit (Option Citation)
  | [], _ => .ok none
  | chunk :: rest, t =>
    if chunk.start_time ≤ t ∧ t < chunk.end_time then
      let time_into_chunk := t - chunk.start_time
      let progress_ratio : ℚ :=
        if chunk.duration_seconds > 0 then time_into_chunk / chunk.duration_seconds else 0
      let sentence_index : Int :=
        min (pyInt (progress_ratio * chunk.sentences.length)) ((chunk.sentences.length : Int) - 1)
      match pyGet chunk.sentences sentence_index with
      | some s => .ok (some (mkCitation md chunk s t))
      | none => .error ()
    else citationScan md rest t

/-- `get_citation_at_timestamp`, as a pure function of the parsed manifest. -/
def get_citation_at_timestamp (m : Manifest) (t : ℚ) : Except Unit (Option Citation) :=
  citationScan m.metadata m.chunks t

/-- One element of `ready_chunks` in the generation ledger (`manifest.json`). -/
structure ReadyChunk where
  chunk_id : Nat
  filename : String
  page : Nat
  text_snippet : String
  start_time : ℚ
  duration_seconds : ℚ
deriving Repr, DecidableEq, Inhabited

/-- The generation ledger written by Stage 3. -/
structure Ledger where
  metadata : Metadata
  book_id : String
  total_chunks : Nat
  ready_chunks : List ReadyChunk
deriving Repr, DecidableEq, Inhabited

/-- What an existing `manifest.json` file can hold: a ledger Stage 3 can parse
(of which it reads only `ready_chunks`, defaulting to `[]` when the key is
missing), or bytes whose read/parse raises. -/
inductive LedgerFileContent where
  | parsed (l : Ledger)
  | unreadable (raw : String)
deriving Repr, DecidableEq

/-- Zero-padding of `f"{chunk_id:04d}"`. -/
def pad4 (n : Nat) : String :=
  if n < 10 then "000" ++ toString n
  else if n < 100 then "00" ++ toString n
  else if n < 1000 then "0" ++ toString n
  else toString n

/-- `f"chunk_{chunk_id:04d}_p{page}.wav"`: the deterministic per-chunk
output filename. -/
def audioFilename (chunk_id page : Nat) : String :=
  "chunk_" ++ pad4 chunk_id ++ "_p" ++ toString page ++ ".wav"

/-- The external world Stage 3 interacts with: pre-existing audio files in the
book's output directory (filename → bytes), the pre-existing ledger file (if
any), and the TTS service (text → audio bytes, `none` for a non-success
response, transport error or timeout). -/
structure GenEnv where
  disk0 : String → Option String
  ledgerFile0 : Option LedgerFileContent
  synth : String → Option String

/-- The state threaded through Stage 3's chunk loop: the audio files on disk,
the persisted ledger file, the in-memory `manifest['ready_chunks']` list, and
the trace of texts sent to the TTS service. -/
structure GenState where
  files : String → Option String
  ledgerDisk : Option LedgerFileContent
  readyChunks : List ReadyChunk
  synthCalls : List String

/-- The ready-chunk record appended for a chunk (both on self-heal and on
successful synthesis). -/
def mkReady (chunk : Chunk) : ReadyChunk :=
  { chunk_id := chunk.chunk_id
    filename := audioFilename chunk.chunk_id chunk.page
    page := chunk.page
    text_snippet := pyTake 50 chunk.text ++ "..."
    start_time := chunk.start_time
    duration_seconds := chunk.duration_seconds }

/-- Stable insertion of a ready record by `chunk_id`: strictly smaller keys
stay before it, equal keys keep their earlier position. -/
def insertById (x : ReadyChunk) : List ReadyChunk → List ReadyChunk
  | [] => [x]
  | y :: ys => if x.chunk_id < y.chunk_id then x :: y :: ys else y :: insertById x ys

/-- `manifest['ready_chunks'].sort(key=lambda c: c['chunk_id'])`: Python's
stable sort on the `chunk_id` key, modelled by stable insertion sort. -/
def sortReady (l : List ReadyChunk) : List ReadyChunk :=
  l.foldl (fun acc x => insertById x acc) []

/-- The ledger value Stage 3 persists: manifest metadata and book id, the
chunk count of the citation manifest, and the current ready list. -/
def mkLedger (data : Manifest) (ready : List ReadyChunk) : Ledger :=
  { metadata := data.metadata
    book_id := data.book_id
    total_chunks := data.chunks.length
    ready_chunks := ready }

/-- The body of Stage 3's `for chunk in chunks_to_process:` loop: skip (with
self-heal of a missing ledger entry) when the file or ledger entry already
exists, otherwise call the TTS service; on failure continue unchanged, on
success write the audio file, append the ready record, re-sort, and persist
the ledger. -/
def processChunk (env : GenEnv) (data : Manifest) (st : GenState) (chunk : Chunk) : GenState :=
  let filename := audioFilename chunk.chunk_id chunk.page
  let fileExists := (st.files filename).isSome
  let inLedger := st.readyChunks.any (fun c => c.chunk_id = chunk.chunk_id)
  if fileExists || inLedger then
    if fileExists && !inLedger then
      let ready' := sortReady (st.readyChunks ++ [mkReady chunk])
      { st with readyChunks := ready'
                ledgerDisk := some (.parsed (mkLedger data ready')) }
    else st
  else
    let st1 := { st with synthCalls := st.synthCalls ++ [chunk.text] }
    match env.synth chunk.text with
    | none => st1
    | some bytes =>
      let ready' := sortReady (st.readyChunks ++ [mkReady chunk])
      { st1 with
          files := fun f => if f = filename then some bytes else st.files f
          readyChunks := ready'
          ledgerDisk := some (.parsed (mkLedger data ready')) }

/-- `data['chunks'][:limit] if limit else data['chunks']` — note Python
truthiness: `limit = 0` (and `None`) selects all chunks. -/
def chunksToProcess (data : Manifest) : Option Nat → List Chunk
  | none => data.chunks
  | some n => if n = 0 then data.chunks else data.chunks.take n

/-- `generate_audio_streaming` (Stage 3) as a state-passing function: returns
the final world state and `some book_id` (the output directory) on a completed
run, or `none` on the hard stop for an unreadable existing ledger.  The
citation file itself has already been read and parsed into `data`. -/
def generate_audio_streaming (env : GenEnv) (data : Manifest) (limit : Option Nat) :
    GenState × Option String :=
  let init : GenState :=
    { files := env.disk0, ledgerDisk := env.ledgerFile0, readyChunks := [], synthCalls := [] }
  match env.ledgerFile0 with
  | some (.unreadable _) => (init, none)
  | some (.parsed l) =>
    (((chunksToProcess data limit).foldl (processChunk env data)
        { init with readyChunks := l.ready_chunks }), some data.book_id)
  | none =>
    (((chunksToProcess data limit).foldl (processChunk env data) init), some data.book_id)

/-- The environment of `run_full_pipeline`: the PDF filename stem, the
pre-existing raw extraction cache (if any, with its optional `title` field),
which citation files exist in the cache directory, and whether Stages 1 and 2
succeed when run. -/
structure PipeEnv where
  pdfStem : String
  rawCacheTitle : Option (Option String)
  citationExists : String → Bool
  stage1Ok : Bool
  stage2Ok : Bool

/-- Which stages a `run_full_pipeline` invocation actually ran. -/
structure PipeTrace where
  ranExtraction : Bool
  ranChunking : Bool
  ranGeneration : Bool
deriving Repr, DecidableEq

/-- The citation filename `run_full_pipeline` probes for: sanitized title from
the raw cache when that cache exists (falling back to the PDF stem), else the
PDF stem. -/
def potentialCitationName (env : PipeEnv) : String :=
  let temp_title :=
    match env.rawCacheTitle with
    | some (some t) => t
    | some none => env.pdfStem
    | none => env.pdfStem
  sanitizeBookId temp_title ++ "_citation_ready.json"

/-- The staging logic of `run_full_pipeline`: if the probed citation manifest
exists, Stages 1 and 2 are both skipped; otherwise Stage 1 (`process_pdf`)
runs unconditionally, then Stage 2, each failure halting the pipeline; Stage 3
runs whenever a citation path was obtained. -/
def run_full_pipeline (env : PipeEnv) : PipeTrace :=
  if env.citationExists (potentialCitationName env) then
    { ranExtraction := false, ranChunking := false, ranGeneration := true }
  else if !env.stage1Ok then
    { ranExtraction := true, ranChunking := false, ranGeneration := false }
  else if !env.stage2Ok then
    { ranExtraction := true, ranChunking := true, ranGeneration := false }
  else
    { ranExtraction := true, ranChunking := true, ranGeneration := true }

deriving instance DecidableEq for Except

/-- The `sentence_text` field of a resolved citation. -/
def citedText : Except Unit (Option Citation) → Option String
  | .ok (some c) => some c.sentence_text
  | _ => none

/-- Modelled from the spec's words for the Citation Resolver: the sentence
index `floor(progress_ratio * sentence_count)` clamped to
`[0, sentence_count-1]`, with `progress_ratio = (t - start_time) /
duration_seconds` taken as `0` when `duration_seconds` is `0`. -/
def specSentenceIndex (c : Chunk) (t : ℚ) : Nat :=
  let ratio : ℚ :=
    if c.duration_seconds = 0 then 0 else (t - c.start_time) / c.duration_seconds
  min (max (Int.floor (ratio * c.sentences.length)) 0).toNat (c.sentences.length - 1)

/-- Modelled from the spec's words for the Citation Resolver: the citation
built from the chunk matched at `t` and the sentence selected by
`specSentenceIndex` — author, title, page, 1-based block ordinal, 1-based
sentence position, and the sentence text truncated with an ellipsis above the
fixed length 100. -/
def specCitation (md : Metadata) (c : Chunk) (t : ℚ) : Citation :=
  let s := c.sentences.getD (specSentenceIndex c t) default
  { citation := md.author ++ " - " ++ md.title ++ ", p." ++ toString c.page
      ++ ", Â¶" ++ toString c.block_index ++ ", sent." ++ toString (s.sentence_in_block + 1)
    timestamp := formatTimestamp t
    page := c.page
    block := c.block_index
    sentence_in_block := s.sentence_in_block + 1
    sentence_text := if s.text.length > 100 then pyTake 100 s.text ++ "..." else s.text }

/-- The sentences of a block the chunk loop actually keeps: each raw sentence
stripped, empty results skipped. -/
def cleanSentences : List String → List String
  | [] => []
  | s :: rest =>
    let t := pyStrip s
    if t = "" then cleanSentences rest else t :: cleanSentences rest

/-- `stepSentence` specialised to an already-stripped, non-empty sentence
(the body of the loop past the `if not sentence: continue` guard). -/
def stepClean (maxChars page blockIndex : Nat) (st : ChunkState × BlockAcc)
    (sentence : String) : ChunkState × BlockAcc :=
  let cs := st.1
  let acc := st.2
  let sentence_chars := sentence.length + 1
  if acc.current_chunk_chars + sentence_chars < maxChars then
    ({ cs with global_sentence_index := cs.global_sentence_index + 1 },
     { current_chunk := acc.current_chunk ++ [sentence]
       current_chunk_chars := acc.current_chunk_chars + sentence_chars
       chunk_sentences_data := acc.chunk_sentences_data ++ [{
         global_index := cs.global_sentence_index
         sentence_in_block := acc.chunk_sentences_data.length
         text := sentence }] })
  else
    let cs' := if acc.current_chunk ≠ [] then closeChunk page blockIndex cs acc else cs
    ({ cs' with global_sentence_index := cs.global_sentence_index + 1 },
     { current_chunk := [sentence]
       current_chunk_chars := sentence_chars
       chunk_sentences_data := [{
         global_index := cs.global_sentence_index
         sentence_in_block := 0
         text := sentence }] })

/-- Modelled from the spec's words for the Chunker's greedy rule: one step of
"add a sentence to the current chunk while `current_chunk_chars +
len(sentence)+1 < max_chars`; otherwise close the current chunk and start a
new one with that sentence" (closing an empty chunk emits nothing). -/
def greedyStep (maxChars : Nat) (st : List (List String) × List String × Nat)
    (s : String) : List (List String) × List String × Nat :=
  if st.2.2 + (s.length + 1) < maxChars then
    (st.1, st.2.1 ++ [s], st.2.2 + (s.length + 1))
  else
    (if st.2.1 = [] then st.1 else st.1 ++ [st.2.1], [s], s.length + 1)

/-- Modelled from the spec's words: the greedy partition of a block's
non-empty sentences into chunks, flushing the trailing chunk at the end. -/
def greedyChunks (maxChars : Nat) (sentences : List String) : List (List String) :=
  let r := sentences.foldl (greedyStep maxChars) ([], [], 0)
  if r.2.1 = [] then r.1 else r.1 ++ [r.2.1]

/-- The chunk list chains contiguously from time `t`: each chunk starts where
the axis currently ends, has non-negative duration, and ends at
`start_time + duration_seconds`. -/
def wellChained : ℚ → List Chunk → Prop
  | _, [] => True
  | t, c :: rest =>
    c.start_time = t ∧ c.end_time = c.start_time + c.duration_seconds ∧
    0 ≤ c.duration_seconds ∧ wellChained c.end_time rest

/-- The running end of the estimated time axis after a chunk list. -/
def lastEnd : ℚ → List Chunk → ℚ
  | t, [] => t
  | _, c :: rest => lastEnd c.end_time rest

theorem lastEnd_append (t : ℚ) (l l' : List Chunk) :
    lastEnd t (l ++ l') = lastEnd (lastEnd t l) l' := by
  induction l generalizing t with
  | nil => rfl
  | cons c cl ih => simpa [lastEnd] using ih c.end_time

theorem wellChained_append_one {t : ℚ} {l : List Chunk} {c : Chunk}
    (h : wellChained t l) (hstart : c.start_time = lastEnd t l)
    (hend : c.end_time = c.start_time + c.duration_seconds)
    (hdur : 0 ≤ c.duration_seconds) : wellChained t (l ++ [c]) := by
  induction l generalizing t with
  | nil => exact ⟨hstart, hend, hdur, trivial⟩
  | cons d dl ih =>
    obtain ⟨h1, h2, h3, h4⟩ := h
    exact ⟨h1, h2, h3, ih h4 hstart⟩

theorem wellChained_first {t : ℚ} {l : List Chunk} (h : wellChained t l)
    (h0 : 0 < l.length) : (l.get ⟨0, h0⟩).start_time = t := by
  cases l with
  | nil => simp at h0
  | cons c cl => exact h.1

theorem wellChained_end_mem {t : ℚ} {l : List Chunk} (h : wellChained t l) :
    ∀ c ∈ l, c.end_time = c.start_time + c.duration_seconds := by
  induction l generalizing t with
  | nil => intro c hc; simp at hc
  | cons d dl ih =>
    intro c hc
    rcases List.mem_cons.mp hc with rfl | hc'
    · exact h.2.1
    · exact ih h.2.2.2 c hc'

theorem wellChained_adjacent {t : ℚ} {l : List Chunk} (h : wellChained t l) :
    ∀ i (hi : i + 1 < l.length),
      (l.get ⟨i, Nat.lt_of_succ_lt hi⟩).end_time = (l.get ⟨i + 1, hi⟩).start_time := by
  induction l generalizing t with
  | nil => intro i hi; simp at hi
  | cons c cl ih =>
    intro i hi
    obtain ⟨h1, h2, h3, h4⟩ := h
    cases i with
    | zero =>
      cases cl with
      | nil => simp at hi
      | cons d dl => exact h4.1.symm
    | succ j => exact ih h4 j (by simpa using hi)

theorem wellChained_start_le {t : ℚ} {l : List Chunk} (h : wellChained t l) :
    ∀ i (hi : i < l.length), t ≤ (l.get ⟨i, hi⟩).start_time := by
  induction l generalizing t with
  | nil => intro i hi; simp at hi
  | cons c cl ih =>
    intro i hi
    obtain ⟨h1, h2, h3, h4⟩ := h
    cases i with
    | zero => exact h1.ge
    | succ j =>
      have hj := ih h4 j (by simpa using hi)
      have : t ≤ c.end_time := by rw [h2, h1]; linarith
      exact le_trans this hj

theorem wellChained_mono {t : ℚ} {l : List Chunk} (h : wellChained t l) :
    ∀ i j (hi : i < l.length) (hj : j < l.length), i ≤ j →
      (l.get ⟨i, hi⟩).start_time ≤ (l.get ⟨j, hj⟩).start_time := by
  induction l generalizing t with
  | nil => intro i j hi; simp at hi
  | cons c cl ih =>
    intro i j hi hj hij
    obtain ⟨h1, h2, h3, h4⟩ := h
    cases i with
    | zero =>
      cases j with
      | zero => exact le_refl _
      | succ k =>
        have hk := wellChained_start_le h4 k (by simpa using hj)
        have : c.start_time ≤ c.end_time := by rw [h2]; linarith
        exact le_trans this hk
    | succ i' =>
      cases j with
      | zero => omega
      | succ k => exact ih h4 i' k (by simpa using hi) (by simpa using hj) (by omega)

/-- The invariant maintained by Stage 2's loops over the chunk-list state and
the per-block accumulator: the time axis chains from 0 and ends at the
running accumulator, chunk ids are dense in emission order, the global
sentence indices traversed so far (chunks then pending accumulator) are
exactly `0, 1, ...`, local sentence positions are dense per chunk, chunks
have non-empty sentence lists, each chunk's text is the space-join of its
sentences, and the pending chunk text list mirrors the pending sentence
records. -/
structure ChunkerInv (cs : ChunkState) (acc : BlockAcc) : Prop where
  chain : wellChained 0 cs.tts_chunks
  lastE : lastEnd 0 cs.tts_chunks = cs.estimated_total_time
  ids : cs.tts_chunks.map Chunk.chunk_id = List.range cs.tts_chunks.length
  glob : (cs.tts_chunks.map (fun c => c.sentences.map SentenceData.global_index)).flatten
      ++ acc.chunk_sentences_data.map SentenceData.global_index
      = List.range cs.global_sentence_index
  locAcc : acc.chunk_sentences_data.map SentenceData.sentence_in_block
      = List.range acc.chunk_sentences_data.length
  locAll : ∀ c ∈ cs.tts_chunks,
      c.sentences.map SentenceData.sentence_in_block = List.range c.sentences.length
  sentsNe : ∀ c ∈ cs.tts_chunks, c.sentences ≠ []
  textJoin : ∀ c ∈ cs.tts_chunks,
      c.text = String.intercalate " " (c.sentences.map SentenceData.text)
  curTexts : acc.current_chunk = acc.chunk_sentences_data.map SentenceData.text

theorem estDuration_nonneg (s : String) : 0 ≤ estDuration s := by
  unfold estDuration AVG_CHARS_PER_SECOND
  positivity

theorem inv_close (p b : Nat) {cs : ChunkState} {acc : BlockAcc} (h : ChunkerInv cs acc)
    (hne : acc.current_chunk ≠ []) :
    ChunkerInv (closeChunk p b cs acc) ⟨[], 0, []⟩ := by
  have hdata : acc.chunk_sentences_data ≠ [] := by
    intro hd
    exact hne (by simp [h.curTexts, hd])
  refine ⟨?_, ?_, ?_, ?_, ?_, ?_, ?_, ?_, ?_⟩
  · exact wellChained_append_one h.chain h.lastE.symm rfl (estDuration_nonneg _)
  · simp [closeChunk, lastEnd_append, h.lastE, lastEnd]
  · simp [closeChunk, List.range_succ, h.ids]
  · simpa [closeChunk, List.flatten_append] using h.glob
  · simp
  · intro c hc
    simp only [closeChunk, List.mem_append, List.mem_singleton] at hc
    rcases hc with hc | rfl
    · exact h.locAll c hc
    · exact h.locAcc
  · intro c hc
    simp only [closeChunk, List.mem_append, List.mem_singleton] at hc
    rcases hc with hc | rfl
    · exact h.sentsNe c hc
    · exact hdata
  · intro c hc
    simp only [closeChunk, List.mem_append, List.mem_singleton] at hc
    rcases hc with hc | rfl
    · exact h.textJoin c hc
    · simp [h.curTexts]
  · simp

theorem inv_dropAcc {cs : ChunkState} {acc : BlockAcc} (h : ChunkerInv cs acc)
    (hc : acc.current_chunk = []) : ChunkerInv cs ⟨[], 0, []⟩ := by
  have hdata : acc.chunk_sentences_data = [] := by
    have := h.curTexts
    rw [hc] at this
    exact (List.map_eq_nil_iff.mp this.symm)
  refine ⟨h.chain, h.lastE, h.ids, ?_, ?_, h.locAll, h.sentsNe, h.textJoin, ?_⟩
  · simpa [hdata] using h.glob
  · simp
  · simp

theorem inv_stepClean (m p b : Nat) (st : ChunkState × BlockAcc)
    (h : ChunkerInv st.1 st.2) (s : String) :
    ChunkerInv (stepClean m p b st s).1 (stepClean m p b st s).2 := by
  obtain ⟨cs, acc⟩ := st
  replace h : ChunkerInv cs acc := h
  unfold stepClean
  by_cases hlt : acc.current_chunk_chars + (s.length + 1) < m
  · simp only [hlt, if_true]
    refine ⟨h.chain, h.lastE, h.ids, ?_, ?_, h.locAll, h.sentsNe, h.textJoin, ?_⟩
    · simpa [List.range_succ, ← List.append_assoc] using
        congrArg (fun l => l ++ [cs.global_sentence_index]) h.glob
    · simp [List.range_succ, h.locAcc]
    · simp [h.curTexts]
  · simp only [hlt, if_false]
    by_cases hcn : acc.current_chunk = []
    · have h0 := inv_dropAcc h hcn
      simp only [hcn, ne_eq, not_true_eq_false, if_false]
      refine ⟨h0.chain, h0.lastE, h0.ids, ?_, ?_, h0.locAll, h0.sentsNe, h0.textJoin, ?_⟩
      · simpa [List.range_succ] using
          congrArg (fun l => l ++ [cs.global_sentence_index]) h0.glob
      · rfl
      · simp
    · have h0 := inv_close p b h hcn
      simp only [hcn, ne_eq, not_false_eq_true, if_true]
      refine ⟨h0.chain, h0.lastE, h0.ids, ?_, ?_, h0.locAll, h0.sentsNe, h0.textJoin, ?_⟩
      · simpa [List.range_succ] using
          congrArg (fun l => l ++ [cs.global_sentence_index]) h0.glob
      · rfl
      · simp

theorem inv_foldClean (m p b : Nat) (ss : List String) (st : ChunkState × BlockAcc)
    (h : ChunkerInv st.1 st.2) :
    ChunkerInv (ss.foldl (stepClean m p b) st).1 (ss.foldl (stepClean m p b) st).2 := by
  induction ss generalizing st with
  | nil => exact h
  | cons s rest ih => exact ih _ (inv_stepClean m p b st h s)

theorem stepSentence_eq (m p b : Nat) (st : ChunkState × BlockAcc) (s : String) :
    stepSentence m p b st s =
      if pyStrip s = "" then st else stepClean m p b st (pyStrip s) := by
  by_cases h : pyStrip s = "" <;> simp [stepSentence, stepClean, h]

theorem foldl_stepSentence_eq (m p b : Nat) (ss : List String) (st : ChunkState × BlockAcc) :
    ss.foldl (stepSentence m p b) st = (cleanSentences ss).foldl (stepClean m p b) st := by
  induction ss generalizing st with
  | nil => rfl
  | cons s rest ih =>
    by_cases h : pyStrip s = "" <;>
      simp [List.foldl, stepSentence_eq, h, cleanSentences, ih]

theorem inv_processBlock (m p b : Nat) (ss : List String) {cs : ChunkState}
    (h : ChunkerInv cs ⟨[], 0, []⟩) :
    ChunkerInv (processBlock m p b ss cs) ⟨[], 0, []⟩ := by
  unfold processBlock
  rw [foldl_stepSentence_eq]
  have h2 := inv_foldClean m p b (cleanSentences ss) (cs, ⟨[], 0, []⟩) h
  by_cases hne : ((cleanSentences ss).foldl (stepClean m p b) (cs, ⟨[], 0, []⟩)).2.current_chunk = []
  · simpa [hne] using inv_dropAcc h2 hne
  · simpa [hne] using inv_close p b h2 hne

theorem inv_init : ChunkerInv ⟨[], 0, 0⟩ ⟨[], 0, []⟩ := by
  refine ⟨trivial, rfl, rfl, rfl, rfl, ?_, ?_, ?_, rfl⟩ <;>
    intro c hc <;> simp at hc

theorem inv_prepareChunks (m : Nat) (content : List PageData) :
    ChunkerInv (prepareChunks m content) ⟨[], 0, []⟩ := by
  unfold prepareChunks
  have hpage : ∀ (p : Nat) (bs : List (Nat × String)) (cs : ChunkState),
      ChunkerInv cs ⟨[], 0, []⟩ →
      ChunkerInv (bs.foldl (fun cs bi => processBlock m p bi.1 (splitSentences bi.2) cs) cs)
        ⟨[], 0, []⟩ := by
    intro p bs
    induction bs with
    | nil => intro cs h; exact h
    | cons bi rest ih => intro cs h; exact ih _ (inv_processBlock m p bi.1 _ h)
  have hall : ∀ (pages : List PageData) (cs : ChunkState),
      ChunkerInv cs ⟨[], 0, []⟩ →
      ChunkerInv (pages.foldl
        (fun cs pd => (pd.text_blocks.enum).foldl
          (fun cs bi => processBlock m pd.page_number bi.1 (splitSentences bi.2) cs) cs)
        cs) ⟨[], 0, []⟩ := by
    intro pages
    induction pages with
    | nil => intro cs h; exact h
    | cons pd rest ih => intro cs h; exact ih _ (hpage pd.page_number _ cs h)
  exact hall content _ inv_init

/-- **C1**: in every manifest produced by the Chunker, chunk ids are dense in
list order (so list order is `chunk_id` order), the first chunk starts at 0,
every chunk satisfies `end_time = start_time + duration_seconds`, adjacent
chunks satisfy `chunk[i].end_time = chunk[i+1].start_time` (including across
block and page boundaries), and `start_time` is non-decreasing with
`chunk_id`. -/
theorem chunker_time_axis (maxChars : Nat) (md : Metadata) (content : List PageData)
    (m : Manifest) (hm : m = prepare_tts_chunks_with_citations maxChars md content) :
    m.chunks.map Chunk.chunk_id = List.range m.chunks.length ∧
    (∀ h0 : 0 < m.chunks.length, (m.chunks.get ⟨0, h0⟩).start_time = 0) ∧
    (∀ c ∈ m.chunks, c.end_time = c.start_time + c.duration_seconds) ∧
    (∀ i (hi : i + 1 < m.chunks.length),
      (m.chunks.get ⟨i, Nat.lt_of_succ_lt hi⟩).end_time
        = (m.chunks.get ⟨i + 1, hi⟩).start_time) ∧
    (∀ i j (hi : i < m.chunks.length) (hj : j < m.chunks.length), i ≤ j →
      (m.chunks.get ⟨i, hi⟩).start_time ≤ (m.chunks.get ⟨j, hj⟩).start_time) := by
  subst hm
  have h := inv_prepareChunks maxChars content
  exact ⟨h.ids, fun h0 => wellChained_first h.chain h0, wellChained_end_mem h.chain,
    wellChained_adjacent h.chain, wellChained_mono h.chain⟩

/-- **C4**: traversing a Chunker manifest in chunk then local order, the
`global_index` values are exactly `0, 1, 2, ...` (strictly increasing, no
gaps, no repeats), each sentence's local position is its 0-based position
within its chunk, and `total_sentences` counts the traversed sentences. -/
theorem chunker_sentence_indices (maxChars : Nat) (md : Metadata) (content : List PageData)
    (m : Manifest) (hm : m = prepare_tts_chunks_with_citations maxChars md content) :
    (m.chunks.map (fun c => c.sentences.map SentenceData.global_index)).flatten
      = List.range m.processing.total_sentences ∧
    (∀ c ∈ m.chunks,
      c.sentences.map SentenceData.sentence_in_block = List.range c.sentences.length) ∧
    m.processing.total_sentences = (m.chunks.map (fun c => c.sentences.length)).sum := by
  subst hm
  have h := inv_prepareChunks maxChars content
  have hg := h.glob
  simp only [List.map_nil, List.append_nil] at hg
  refine ⟨hg, h.locAll, ?_⟩
  have hlen := congrArg List.length hg
  simp only [List.length_flatten, List.length_range, List.map_map, Function.comp_def,
    List.length_map] at hlen
  exact hlen.symm

theorem pyInt_eq_floor {q : ℚ} (h : 0 ≤ q) : pyInt q = Int.floor q := by
  unfold pyInt
  rw [Rat.floor_def]
  exact Int.tdiv_eq_ediv (Rat.num_nonneg.mpr h) (Int.ofNat_nonneg _)

theorem pyGet_min_some {l : List SentenceData} (hl : l ≠ []) {n : Int} (hn : 0 ≤ n) :
    ∃ s, pyGet l (min n ((l.length : Int) - 1)) = some s := by
  have hlen : 0 < l.length := List.length_pos.mpr hl
  have hlen' : (1 : Int) ≤ (l.length : Int) := by exact_mod_cast hlen
  have h0 : 0 ≤ min n ((l.length : Int) - 1) := le_min hn (by omega)
  have hi : (min n ((l.length : Int) - 1)).toNat < l.length := by
    have := min_le_right n ((l.length : Int) - 1)
    omega
  refine ⟨l.get ⟨(min n ((l.length : Int) - 1)).toNat, hi⟩, ?_⟩
  unfold pyGet
  rw [if_pos h0]
  exact List.get?_eq_get hi

theorem citationScan_no_error {md : Metadata} {chunks : List Chunk} {t : ℚ}
    (h : ∀ c ∈ chunks, c.sentences ≠ []) :
    citationScan md chunks t ≠ Except.error () := by
  induction chunks with
  | nil => simp [citationScan]
  | cons c rest ih =>
    by_cases hc : c.start_time ≤ t ∧ t < c.end_time
    · have hne := h c (List.mem_cons_self c rest)
      have hr : (0 : ℚ) ≤
          (if c.duration_seconds > 0 then (t - c.start_time) / c.duration_seconds else 0) := by
        by_cases hd : c.duration_seconds > 0
        · rw [if_pos hd]
          exact div_nonneg (by linarith [hc.1]) hd.le
        · rw [if_neg hd]
      have hq : (0 : ℚ) ≤
          (if c.duration_seconds > 0 then (t - c.start_time) / c.duration_seconds else 0)
            * (c.sentences.length : ℚ) :=
        mul_nonneg hr (by positivity)
      have hn : 0 ≤ pyInt
          ((if c.duration_seconds > 0 then (t - c.start_time) / c.duration_seconds else 0)
            * (c.sentences.length : ℚ)) := by
        rw [pyInt_eq_floor hq]
        exact Int.floor_nonneg.mpr hq
      obtain ⟨s, hs⟩ := pyGet_min_some hne hn
      simp only [citationScan, if_pos hc, hs]
      intro hcontra
      cases hcontra
    · simp only [citationScan, if_neg hc]
      exact ih (fun d hd => h d (List.mem_cons_of_mem c hd))

/-- **C9**: every chunk emitted by the Chunker has a non-empty sentence list,
so the resolver's sentence lookup is always within bounds: on a Chunker
manifest `get_citation_at_timestamp` never raises (never hits the
`IndexError` branch), for any timestamp. -/
theorem chunker_resolver_safe (maxChars : Nat) (md : Metadata) (content : List PageData)
    (t : ℚ) (m : Manifest) (hm : m = prepare_tts_chunks_with_citations maxChars md content) :
    (∀ c ∈ m.chunks, c.sentences ≠ []) ∧
    get_citation_at_timestamp m t ≠ Except.error () := by
  subst hm
  have h := inv_prepareChunks maxChars content
  exact ⟨h.sentsNe, citationScan_no_error h.sentsNe⟩

/-- **C10**: in every Chunker manifest, each chunk's `text` is exactly the
single-space join of its sentences' texts. -/
theorem chunker_text_join (maxChars : Nat) (md : Metadata) (content : List PageData)
    (m : Manifest) (hm : m = prepare_tts_chunks_with_citations maxChars md content) :
    ∀ c ∈ m.chunks, c.text = String.intercalate " " (c.sentences.map SentenceData.text) := by
  subst hm
  exact (inv_prepareChunks maxChars content).textJoin

/-- A two-page sample document used to instantiate the chunker theorems. -/
def mdSample : Metadata := ⟨"Sample Book", "A. Author", "sample.pdf", 2⟩

def contentSample : List PageData :=
  [⟨1, ["Hello world. This is a test! Another sentence?"]⟩, ⟨2, ["Tiny. Bits."]⟩]

def mSample : Manifest := prepare_tts_chunks_with_citations 15 mdSample contentSample

theorem chunker_time_axis_witness :
    (mSample.chunks.get ⟨0, by decide⟩).start_time = 0 ∧
    (mSample.chunks.get ⟨2, by decide⟩).end_time = (mSample.chunks.get ⟨3, by decide⟩).start_time ∧
    (mSample.chunks.get ⟨1, by decide⟩).start_time ≤ (mSample.chunks.get ⟨3, by decide⟩).start_time := by
  have h := chunker_time_axis 15 mdSample contentSample mSample rfl
  exact ⟨h.2.1 (by decide), h.2.2.2.1 2 (by decide),
    h.2.2.2.2 1 3 (by decide) (by decide) (by decide)⟩

theorem chunker_sentence_indices_witness :
    (mSample.chunks.map (fun c => c.sentences.map SentenceData.global_index)).flatten
      = List.range mSample.processing.total_sentences ∧
    ((mSample.chunks.get ⟨3, by decide⟩).sentences.map SentenceData.sentence_in_block
      = List.range (mSample.chunks.get ⟨3, by decide⟩).sentences.length) ∧
    mSample.processing.total_sentences = (mSample.chunks.map (fun c => c.sentences.length)).sum := by
  have h := chunker_sentence_indices 15 mdSample contentSample mSample rfl
  exact ⟨h.1, h.2.1 _ (List.get_mem _ _ _), h.2.2⟩

theorem chunker_resolver_safe_witness :
    (mSample.chunks.get ⟨0, by decide⟩).sentences ≠ [] ∧
    get_citation_at_timestamp mSample 1 ≠ Except.error () := by
  have h := chunker_resolver_safe 15 mdSample contentSample 1 mSample rfl
  exact ⟨h.1 _ (List.get_mem _ _ _), h.2⟩

theorem chunker_text_join_witness :
    (mSample.chunks.get ⟨3, by decide⟩).text
      = String.intercalate " "
          ((mSample.chunks.get ⟨3, by decide⟩).sentences.map SentenceData.text) :=
  chunker_text_join 15 mdSample contentSample mSample rfl _ (List.get_mem _ _ _)

theorem greedy_flatten_step (m : Nat) (ss : List String) :
    ∀ g : List (List String) × List String × Nat,
      ((ss.foldl (greedyStep m) g).1).flatten ++ (ss.foldl (greedyStep m) g).2.1
        = g.1.flatten ++ (g.2.1 ++ ss) := by
  induction ss with
  | nil => intro g; simp
  | cons s rest ih =>
    intro g
    show ((rest.foldl (greedyStep m) (greedyStep m g s)).1).flatten
        ++ (rest.foldl (greedyStep m) (greedyStep m g s)).2.1 = _
    rw [ih (greedyStep m g s)]
    unfold greedyStep
    by_cases hlt : g.2.2 + (s.length + 1) < m
    · simp [hlt]
    · by_cases hc : g.2.1 = [] <;> simp [hlt, hc]

theorem greedyChunks_flatten (m : Nat) (l : List String) :
    (greedyChunks m l).flatten = l := by
  unfold greedyChunks
  have h := greedy_flatten_step m l ([], [], 0)
  simp only [List.flatten_nil, List.nil_append] at h
  by_cases hc : (l.foldl (greedyStep m) ([], [], 0)).2.1 = []
  · simpa [hc] using h
  · simpa [hc] using h


theorem greedy_sim (m p b : Nat) (ss : List String) :
    ∀ (cs0 cs : ChunkState) (acc : BlockAcc) (g : List (List String) × List String × Nat)
      (new : List Chunk),
      cs.tts_chunks = cs0.tts_chunks ++ new →
      new.map (fun c => c.sentences.map SentenceData.text) = g.1 →
      acc.current_chunk = g.2.1 →
      acc.current_chunk_chars = g.2.2 →
      acc.current_chunk = acc.chunk_sentences_data.map SentenceData.text →
      (∀ c ∈ new, c.page = p ∧ c.block_index = b + 1) →
      ∃ new' : List Chunk,
        (ss.foldl (stepClean m p b) (cs, acc)).1.tts_chunks = cs0.tts_chunks ++ new' ∧
        new'.map (fun c => c.sentences.map SentenceData.text)
          = (ss.foldl (greedyStep m) g).1 ∧
        (ss.foldl (stepClean m p b) (cs, acc)).2.current_chunk
          = (ss.foldl (greedyStep m) g).2.1 ∧
        (ss.foldl (stepClean m p b) (cs, acc)).2.current_chunk_chars
          = (ss.foldl (greedyStep m) g).2.2 ∧
        (ss.foldl (stepClean m p b) (cs, acc)).2.current_chunk
          = (ss.foldl (stepClean m p b) (cs, acc)).2.chunk_sentences_data.map SentenceData.text ∧
        (∀ c ∈ new', c.page = p ∧ c.block_index = b + 1) := by
  induction ss with
  | nil =>
    intro cs0 cs acc g new h1 h2 h3 h4 h5 h6
    exact ⟨new, h1, h2, h3, h4, h5, h6⟩
  | cons s rest ih =>
    intro cs0 cs acc g new h1 h2 h3 h4 h5 h6
    simp only [List.foldl_cons]
    by_cases hlt : acc.current_chunk_chars + (s.length + 1) < m
    · have hg : greedyStep m g s = (g.1, g.2.1 ++ [s], g.2.2 + (s.length + 1)) := by
        unfold greedyStep
        rw [if_pos (h4 ▸ hlt)]
      have hs : stepClean m p b (cs, acc) s =
          ({ cs with global_sentence_index := cs.global_sentence_index + 1 },
           { current_chunk := acc.current_chunk ++ [s]
             current_chunk_chars := acc.current_chunk_chars + (s.length + 1)
             chunk_sentences_data := acc.chunk_sentences_data ++ [{
               global_index := cs.global_sentence_index
               sentence_in_block := acc.chunk_sentences_data.length
               text := s }] }) := by
        unfold stepClean
        rw [if_pos hlt]
      rw [hs, hg]
      have h3' : acc.current_chunk ++ [s] = g.2.1 ++ [s] := by rw [h3]
      have h4' : acc.current_chunk_chars + (s.length + 1) = g.2.2 + (s.length + 1) := by rw [h4]
      have h5' : acc.current_chunk ++ [s]
          = (acc.chunk_sentences_data ++ [{
              global_index := cs.global_sentence_index
              sentence_in_block := acc.chunk_sentences_data.length
              text := s : SentenceData }]).map SentenceData.text := by
        simp [h5]
      exact ih cs0 _ _ _ new h1 h2 h3' h4' h5' h6
    · by_cases hc : acc.current_chunk = []
      · have hg : greedyStep m g s = (g.1, [s], s.length + 1) := by
          unfold greedyStep
          rw [if_neg (h4 ▸ hlt), if_pos (h3 ▸ hc)]
        have hs : stepClean m p b (cs, acc) s =
            ({ cs with global_sentence_index := cs.global_sentence_index + 1 },
             { current_chunk := [s]
               current_chunk_chars := s.length + 1
               chunk_sentences_data := [{
                 global_index := cs.global_sentence_index
                 sentence_in_block := 0
                 text := s }] }) := by
          unfold stepClean
          rw [if_neg hlt]
          simp [hc]
        rw [hs, hg]
        have h5' : [s] = ([{
            global_index := cs.global_sentence_index
            sentence_in_block := 0
            text := s : SentenceData }]).map SentenceData.text := by simp
        exact ih cs0 _ _ _ new h1 h2 rfl rfl h5' h6
      · have hg : greedyStep m g s = (g.1 ++ [g.2.1], [s], s.length + 1) := by
          unfold greedyStep
          rw [if_neg (h4 ▸ hlt), if_neg (h3 ▸ hc)]
        have hs : stepClean m p b (cs, acc) s =
            ({ closeChunk p b cs acc with
                global_sentence_index := cs.global_sentence_index + 1 },
             { current_chunk := [s]
               current_chunk_chars := s.length + 1
               chunk_sentences_data := [{
                 global_index := cs.global_sentence_index
                 sentence_in_block := 0
                 text := s }] }) := by
          unfold stepClean
          rw [if_neg hlt]
          simp [hc]
        rw [hs, hg]
        have h1' : ({ closeChunk p b cs acc with
            global_sentence_index := cs.global_sentence_index + 1 } : ChunkState).tts_chunks
            = cs0.tts_chunks ++ (new ++ [{
                chunk_id := cs.tts_chunks.length
                text := String.intercalate " " acc.current_chunk
                page := p
                block_index := b + 1
                sentences := acc.chunk_sentences_data
                start_time := cs.estimated_total_time
                duration_seconds := estDuration (String.intercalate " " acc.current_chunk)
                end_time := cs.estimated_total_time
                  + estDuration (String.intercalate " " acc.current_chunk) }]) := by
          simp [closeChunk, h1]
        have h2' : (new ++ [{
            chunk_id := cs.tts_chunks.length
            text := String.intercalate " " acc.current_chunk
            page := p
            block_index := b + 1
            sentences := acc.chunk_sentences_data
            start_time := cs.estimated_total_time
            duration_seconds := estDuration (String.intercalate " " acc.current_chunk)
            end_time := cs.estimated_total_time
              + estDuration (String.intercalate " " acc.current_chunk) : Chunk }]).map
              (fun c => c.sentences.map SentenceData.text)
            = g.1 ++ [g.2.1] := by
          simp only [List.map_append, List.map_cons, List.map_nil, h2]
          rw [← h5, h3]
        have h5' : [s] = ([{
            global_index := cs.global_sentence_index
            sentence_in_block := 0
            text := s : SentenceData }]).map SentenceData.text := by simp
        have h6' : ∀ c ∈ new ++ [{
            chunk_id := cs.tts_chunks.length
            text := String.intercalate " " acc.current_chunk
            page := p
            block_index := b + 1
            sentences := acc.chunk_sentences_data
            start_time := cs.estimated_total_time
            duration_seconds := estDuration (String.intercalate " " acc.current_chunk)
            end_time := cs.estimated_total_time
              + estDuration (String.intercalate " " acc.current_chunk) : Chunk }],
            c.page = p ∧ c.block_index = b + 1 := by
          intro c hcmem
          rcases List.mem_append.mp hcmem with hcm | hcm
          · exact h6 c hcm
          · rcases List.mem_singleton.mp hcm with rfl
            exact ⟨rfl, rfl⟩
        exact ih cs0 _ _ _ _ h1' h2' rfl rfl h5' h6'

/-- The chunk record `closeChunk` appends. -/
def emittedChunk (page blockIndex : Nat) (cs : ChunkState) (acc : BlockAcc) : Chunk :=
  { chunk_id := cs.tts_chunks.length
    text := String.intercalate " " acc.current_chunk
    page := page
    block_index := blockIndex + 1
    sentences := acc.chunk_sentences_data
    start_time := cs.estimated_total_time
    duration_seconds := estDuration (String.intercalate " " acc.current_chunk)
    end_time := cs.estimated_total_time + estDuration (String.intercalate " " acc.current_chunk) }

theorem closeChunk_tts (p b : Nat) (cs : ChunkState) (acc : BlockAcc) :
    (closeChunk p b cs acc).tts_chunks = cs.tts_chunks ++ [emittedChunk p b cs acc] := rfl

/-- **C3**: for every block, from any prior state, the Chunker appends exactly
the chunks of the greedy partition of the block's stripped non-empty
sentences: their sentence-text lists equal `greedyChunks` (the spec's greedy
rule), their concatenation is the whole sentence list (no sentence dropped or
truncated, oversized sentences included), and every appended chunk carries
this block's page and 1-based block ordinal — so no chunk mixes blocks. -/
theorem chunker_greedy_rule (maxChars page blockIndex : Nat) (sentences : List String)
    (cs : ChunkState) :
    ∃ newChunks : List Chunk,
      (processBlock maxChars page blockIndex sentences cs).tts_chunks
        = cs.tts_chunks ++ newChunks ∧
      newChunks.map (fun c => c.sentences.map SentenceData.text)
        = greedyChunks maxChars (cleanSentences sentences) ∧
      (newChunks.map (fun c => c.sentences.map SentenceData.text)).flatten
        = cleanSentences sentences ∧
      (∀ c ∈ newChunks, c.page = page ∧ c.block_index = blockIndex + 1) := by
  obtain ⟨new', e1, e2, e3, e4, e5, e6⟩ :=
    greedy_sim maxChars page blockIndex (cleanSentences sentences) cs cs ⟨[], 0, []⟩
      ([], [], 0) [] (by simp) rfl rfl rfl rfl (by intro c hc; simp at hc)
  unfold processBlock
  rw [foldl_stepSentence_eq]
  set r := ((cleanSentences sentences).foldl (stepClean maxChars page blockIndex)
      (cs, ⟨[], 0, []⟩)) with hrdef
  by_cases hcur : r.2.current_chunk = []
  · have hg1 : ((cleanSentences sentences).foldl (greedyStep maxChars) ([], [], 0)).2.1 = [] :=
      e3 ▸ hcur
    have hmap : new'.map (fun c => c.sentences.map SentenceData.text)
        = greedyChunks maxChars (cleanSentences sentences) := by
      unfold greedyChunks
      simp only [hg1, if_true]
      exact e2
    refine ⟨new', by simpa [hcur] using e1, hmap, ?_, e6⟩
    rw [hmap]
    exact greedyChunks_flatten maxChars (cleanSentences sentences)
  · have hg1 : ((cleanSentences sentences).foldl (greedyStep maxChars) ([], [], 0)).2.1 ≠ [] :=
      fun h => hcur (by rw [e3, h])
    have hmap : (new' ++ [emittedChunk page blockIndex r.1 r.2]).map
        (fun c => c.sentences.map SentenceData.text)
        = greedyChunks maxChars (cleanSentences sentences) := by
      simp only [List.map_append, List.map_cons, List.map_nil, e2]
      have hsent : (emittedChunk page blockIndex r.1 r.2).sentences.map SentenceData.text
          = ((cleanSentences sentences).foldl (greedyStep maxChars) ([], [], 0)).2.1 := by
        show r.2.chunk_sentences_data.map SentenceData.text = _
        rw [← e5, e3]
      rw [hsent]
      unfold greedyChunks
      simp only [hg1, if_false]
    refine ⟨new' ++ [emittedChunk page blockIndex r.1 r.2], ?_, hmap, ?_, ?_⟩
    · rw [if_pos hcur, closeChunk_tts, e1, List.append_assoc]
    · rw [hmap]
      exact greedyChunks_flatten maxChars (cleanSentences sentences)
    · intro c hcm
      rcases List.mem_append.mp hcm with h | h
      · exact e6 c h
      · rcases List.mem_singleton.mp h with rfl
        exact ⟨rfl, rfl⟩

theorem resolver_idx_eq (c : Chunk) (t : ℚ) (hst : c.start_time ≤ t) (hne : c.sentences ≠ []) :
    pyGet c.sentences
      (min (pyInt ((if c.duration_seconds > 0 then (t - c.start_time) / c.duration_seconds else 0)
          * (c.sentences.length : ℚ))) ((c.sentences.length : Int) - 1))
      = some (c.sentences.getD (specSentenceIndex c t) default) := by
  have hlen : 0 < c.sentences.length := List.length_pos.mpr hne
  have hL : (1 : Int) ≤ (c.sentences.length : Int) := by exact_mod_cast hlen
  have hr : (0 : ℚ) ≤
      (if c.duration_seconds > 0 then (t - c.start_time) / c.duration_seconds else 0) := by
    by_cases hd : c.duration_seconds > 0
    · rw [if_pos hd]; exact div_nonneg (by linarith) hd.le
    · rw [if_neg hd]
  have hq : (0 : ℚ) ≤
      (if c.duration_seconds > 0 then (t - c.start_time) / c.duration_seconds else 0)
        * (c.sentences.length : ℚ) := mul_nonneg hr (by positivity)
  have hpy : pyInt ((if c.duration_seconds > 0 then (t - c.start_time) / c.duration_seconds else 0)
      * (c.sentences.length : ℚ))
      = Int.floor ((if c.duration_seconds > 0 then (t - c.start_time) / c.duration_seconds else 0)
        * (c.sentences.length : ℚ)) :=
    pyInt_eq_floor hq
  have hfl : 0 ≤ Int.floor
      ((if c.duration_seconds > 0 then (t - c.start_time) / c.duration_seconds else 0)
        * (c.sentences.length : ℚ)) := Int.floor_nonneg.mpr hq
  -- the spec-side floor agrees with the code-side floor in all duration cases
  have hspec : specSentenceIndex c t =
      (min (Int.floor ((if c.duration_seconds > 0 then (t - c.start_time) / c.duration_seconds
          else 0) * (c.sentences.length : ℚ))) ((c.sentences.length : Int) - 1)).toNat := by
    unfold specSentenceIndex
    dsimp only
    rcases lt_trichotomy c.duration_seconds 0 with hd | hd | hd
    · have hd1 : ¬ c.duration_seconds > 0 := by linarith
      have hd2 : ¬ c.duration_seconds = 0 := by linarith
      rw [if_neg hd2, if_neg hd1]
      have hnum : (t - c.start_time) / c.duration_seconds ≤ 0 :=
        div_nonpos_of_nonneg_of_nonpos (by linarith) hd.le
      have hmul : (t - c.start_time) / c.duration_seconds * (c.sentences.length : ℚ) ≤ 0 :=
        mul_nonpos_of_nonpos_of_nonneg hnum (by positivity)
      have hfl2 : Int.floor ((t - c.start_time) / c.duration_seconds
          * (c.sentences.length : ℚ)) ≤ 0 := Int.floor_nonpos hmul
      simp only [zero_mul, Int.floor_zero]
      omega
    · have hd1 : ¬ c.duration_seconds > 0 := by simp [hd]
      rw [if_pos hd, if_neg hd1]
      simp only [zero_mul, Int.floor_zero]
      omega
    · rw [if_pos hd, if_neg (by linarith : ¬ c.duration_seconds = 0)]
      have hfl3 : 0 ≤ Int.floor ((t - c.start_time) / c.duration_seconds
          * (c.sentences.length : ℚ)) := by
        rw [if_pos hd] at hq
        exact Int.floor_nonneg.mpr hq
      omega
  have h0 : 0 ≤ min (Int.floor ((if c.duration_seconds > 0 then
      (t - c.start_time) / c.duration_seconds else 0) * (c.sentences.length : ℚ)))
      ((c.sentences.length : Int) - 1) := le_min hfl (by omega)
  have hidx : (min (Int.floor ((if c.duration_seconds > 0 then
      (t - c.start_time) / c.duration_seconds else 0) * (c.sentences.length : ℚ)))
      ((c.sentences.length : Int) - 1)).toNat < c.sentences.length := by
    have := min_le_right (Int.floor ((if c.duration_seconds > 0 then
      (t - c.start_time) / c.duration_seconds else 0) * (c.sentences.length : ℚ)))
      ((c.sentences.length : Int) - 1)
    omega
  rw [hpy]
  unfold pyGet
  rw [if_pos h0, List.get?_eq_get hidx, hspec]
  exact congrArg some (List.getD_eq_get _ _ hidx).symm

theorem citationScan_found {md : Metadata} {chunks : List Chunk} {t : ℚ} {c : Chunk}
    (hmem : c ∈ chunks) (hin : c.start_time ≤ t ∧ t < c.end_time)
    (huniq : ∀ c' ∈ chunks, (c'.start_time ≤ t ∧ t < c'.end_time) → c' = c)
    (hne : c.sentences ≠ []) :
    citationScan md chunks t = .ok (some (specCitation md c t)) := by
  induction chunks with
  | nil => simp at hmem
  | cons d rest ih =>
    by_cases hd : d.start_time ≤ t ∧ t < d.end_time
    · have hdc : d = c := huniq d (List.mem_cons_self d rest) hd
      subst hdc
      have hpg := resolver_idx_eq d t hin.1 hne
      simp only [citationScan, if_pos hd, hpg]
      rfl
    · have hmem' : c ∈ rest := by
        rcases List.mem_cons.mp hmem with rfl | h
        · exact absurd hin hd
        · exact h
      simp only [citationScan, if_neg hd]
      exact ih hmem' (fun c' hc' => huniq c' (List.mem_cons_of_mem d hc'))

theorem citationScan_notFound {md : Metadata} {chunks : List Chunk} {t : ℚ}
    (h : ∀ c ∈ chunks, ¬(c.start_time ≤ t ∧ t < c.end_time)) :
    citationScan md chunks t = .ok none := by
  induction chunks with
  | nil => rfl
  | cons d rest ih =>
    simp only [citationScan, if_neg (h d (List.mem_cons_self d rest))]
    exact ih (fun c hc => h c (List.mem_cons_of_mem d hc))

/-- The spec's worked example: two chunks `[0,5)` holding sentences A, B and
`[5,10)` holding C. -/
def exampleMd : Metadata := ⟨"Unknown Title", "Unknown", "example.pdf", 1⟩

def exChunk0 : Chunk :=
  ⟨0, "A B", 1, 1, [⟨0, 0, "A"⟩, ⟨1, 1, "B"⟩], 0, 5, 5⟩

def exChunk1 : Chunk :=
  ⟨1, "C", 1, 2, [⟨2, 0, "C"⟩], 5, 5, 10⟩

def exampleManifest : Manifest :=
  ⟨exampleMd, "Unknown_Title", ⟨2, 3, 10⟩, [exChunk0, exChunk1]⟩

/-- **C2**: the resolver returns, for the unique chunk whose half-open
interval `[start_time, end_time)` contains the timestamp, the citation built
from the sentence at index `floor(progress_ratio * sentence_count)` clamped to
`[0, sentence_count-1]` (ratio 0 when the duration is 0), with 1-based block
ordinal and sentence position and ellipsis-truncated sentence text
(`specCitation`); it reports not-found when no chunk's interval contains the
timestamp; and on the spec's example manifest, `resolve 3` yields sentence B,
`resolve 7` yields C, and `resolve 12` is not-found. -/
theorem resolver_spec (m : Manifest) (t : ℚ) :
    ((∀ c ∈ m.chunks, ¬(c.start_time ≤ t ∧ t < c.end_time)) →
      get_citation_at_timestamp m t = .ok none) ∧
    (∀ c ∈ m.chunks, (c.start_time ≤ t ∧ t < c.end_time) →
      (∀ c' ∈ m.chunks, (c'.start_time ≤ t ∧ t < c'.end_time) → c' = c) →
      c.sentences ≠ [] →
      get_citation_at_timestamp m t = .ok (some (specCitation m.metadata c t))) ∧
    citedText (get_citation_at_timestamp exampleManifest 3) = some "B" ∧
    citedText (get_citation_at_timestamp exampleManifest 7) = some "C" ∧
    get_citation_at_timestamp exampleManifest 12 = .ok none := by
  refine ⟨fun h => citationScan_notFound h,
    fun c hmem hin huniq hne => citationScan_found hmem hin huniq hne, ?_, ?_, ?_⟩
  · have huniq : ∀ c' ∈ exampleManifest.chunks,
        (c'.start_time ≤ (3 : ℚ) ∧ (3 : ℚ) < c'.end_time) → c' = exChunk0 := by
      intro c' hc' hin
      rcases List.mem_cons.mp hc' with rfl | hc'
      · rfl
      · rcases List.mem_singleton.mp hc' with rfl
        exact absurd hin.1 (by norm_num [exChunk1])
    have h := @citationScan_found exampleMd [exChunk0, exChunk1] (3 : ℚ) exChunk0
      (List.mem_cons_self exChunk0 [exChunk1])
      ⟨by norm_num [exChunk0], by norm_num [exChunk0]⟩ huniq (by simp [exChunk0])
    have hidx : specSentenceIndex exChunk0 3 = 1 := by
      unfold specSentenceIndex exChunk0
      norm_num
    show citedText (citationScan exampleMd [exChunk0, exChunk1] 3) = some "B"
    rw [h]
    show some (specCitation exampleMd exChunk0 3).sentence_text = some "B"
    congr 1
    unfold specCitation
    dsimp only
    rw [hidx]
    decide
  · have huniq : ∀ c' ∈ exampleManifest.chunks,
        (c'.start_time ≤ (7 : ℚ) ∧ (7 : ℚ) < c'.end_time) → c' = exChunk1 := by
      intro c' hc' hin
      rcases List.mem_cons.mp hc' with rfl | hc'
      · exact absurd hin.2 (by norm_num [exChunk0])
      · rcases List.mem_singleton.mp hc' with rfl
        rfl
    have h := @citationScan_found exampleMd [exChunk0, exChunk1] (7 : ℚ) exChunk1
      (List.mem_cons_of_mem exChunk0 (List.mem_cons_self exChunk1 []))
      ⟨by norm_num [exChunk1], by norm_num [exChunk1]⟩ huniq (by simp [exChunk1])
    have hidx : specSentenceIndex exChunk1 7 = 0 := by
      unfold specSentenceIndex exChunk1
      norm_num
    show citedText (citationScan exampleMd [exChunk0, exChunk1] 7) = some "C"
    rw [h]
    show some (specCitation exampleMd exChunk1 7).sentence_text = some "C"
    congr 1
    unfold specCitation
    dsimp only
    rw [hidx]
    decide
  · refine citationScan_notFound ?_
    intro c hc
    rcases List.mem_cons.mp hc with rfl | hc
    · intro hin; exact absurd hin.2 (by norm_num [exChunk0])
    · rcases List.mem_singleton.mp hc with rfl
      intro hin; exact absurd hin.2 (by norm_num [exChunk1])

theorem resolver_spec_witness :
    get_citation_at_timestamp exampleManifest 12 = .ok none ∧
    get_citation_at_timestamp exampleManifest 7
      = .ok (some (specCitation exampleMd exChunk1 7)) := by
  constructor
  · refine (resolver_spec exampleManifest 12).1 ?_
    intro c hc
    rcases List.mem_cons.mp hc with rfl | hc
    · intro hin; exact absurd hin.2 (by norm_num [exChunk0])
    · rcases List.mem_singleton.mp hc with rfl
      intro hin; exact absurd hin.2 (by norm_num [exChunk1])
  · refine (resolver_spec exampleManifest 7).2.1 exChunk1
      (List.mem_cons_of_mem exChunk0 (List.mem_cons_self exChunk1 []))
      ⟨by norm_num [exChunk1], by norm_num [exChunk1]⟩ ?_ (by simp [exChunk1])
    intro c' hc' hin
    rcases List.mem_cons.mp hc' with rfl | hc'
    · exact absurd hin.2 (by norm_num [exChunk0])
    · rcases List.mem_singleton.mp hc' with rfl
      rfl

/-- **C5**: if a chunk's audio file exists at its deterministic path but the
ledger has no entry for it, the step restores the entry from the chunk's
manifest metadata (`mkReady`: filename, page, text preview, start_time,
duration_seconds), re-sorts the ready list by `chunk_id`, and persists the
ledger immediately, leaving disk and the synthesizer-call trace untouched;
and any chunk already on disk or in the ledger is never re-synthesized. -/
theorem generator_self_heal (env : GenEnv) (data : Manifest) (st : GenState) (chunk : Chunk) :
    ((st.files (audioFilename chunk.chunk_id chunk.page)).isSome = true →
     st.readyChunks.any (fun c => c.chunk_id = chunk.chunk_id) = false →
     processChunk env data st chunk =
       { st with
           readyChunks := sortReady (st.readyChunks ++ [mkReady chunk])
           ledgerDisk := some (.parsed (mkLedger data
             (sortReady (st.readyChunks ++ [mkReady chunk])))) }) ∧
    (((st.files (audioFilename chunk.chunk_id chunk.page)).isSome
        || st.readyChunks.any (fun c => c.chunk_id = chunk.chunk_id)) = true →
     (processChunk env data st chunk).synthCalls = st.synthCalls) := by
  constructor
  · intro h1 h2
    simp [processChunk, h1, h2]
  · intro h
    unfold processChunk
    rw [if_pos h]
    split <;> rfl

/-- **C6**: when an existing ledger file cannot be read or parsed, Segment
Generation halts for the book before touching any chunk: it returns `none`,
makes no synthesizer call, writes nothing, and leaves the whole world state
(disk and ledger file) exactly as it found it. -/
theorem generator_ledger_hard_stop (env : GenEnv) (data : Manifest) (limit : Option Nat)
    (raw : String) (h : env.ledgerFile0 = some (.unreadable raw)) :
    generate_audio_streaming env data limit =
      ({ files := env.disk0, ledgerDisk := env.ledgerFile0, readyChunks := [],
         synthCalls := [] }, none) := by
  unfold generate_audio_streaming
  rw [h]

/-- **C7**: a synthesis failure on a chunk not already on disk or in the
ledger changes nothing except recording the attempted call — the chunk stays
absent from disk and ledger and every other chunk's files and entries are
untouched; and the stage runs to completion (returns the output directory)
whenever the pre-existing ledger is not unreadable, regardless of synthesis
failures. -/
theorem generator_synth_failure_nonfatal (env : GenEnv) (data : Manifest)
    (st : GenState) (chunk : Chunk) (limit : Option Nat) :
    ((st.files (audioFilename chunk.chunk_id chunk.page)).isSome = false →
     st.readyChunks.any (fun c => c.chunk_id = chunk.chunk_id) = false →
     env.synth chunk.text = none →
     processChunk env data st chunk = { st with synthCalls := st.synthCalls ++ [chunk.text] }) ∧
    ((∀ raw, env.ledgerFile0 ≠ some (.unreadable raw)) →
     (generate_audio_streaming env data limit).2 = some data.book_id) := by
  constructor
  · intro h1 h2 h3
    simp [processChunk, h1, h2, h3]
  · intro h
    unfold generate_audio_streaming
    cases henv : env.ledgerFile0 with
    | none => rfl
    | some lf =>
      cases lf with
      | parsed l => rfl
      | unreadable raw => exact absurd henv (h raw)

/-- A state with one audio file on disk and an empty ledger list, for the
self-heal witness. -/
def stHeal : GenState :=
  { files := fun f => if f = audioFilename 0 1 then some "waveform" else none
    ledgerDisk := none
    readyChunks := []
    synthCalls := [] }

def envQuiet : GenEnv := ⟨fun _ => none, none, fun _ => none⟩

theorem generator_self_heal_witness :
    processChunk envQuiet exampleManifest stHeal exChunk0 =
      { stHeal with
          readyChunks := sortReady (stHeal.readyChunks ++ [mkReady exChunk0])
          ledgerDisk := some (.parsed (mkLedger exampleManifest
            (sortReady (stHeal.readyChunks ++ [mkReady exChunk0])))) } ∧
    (processChunk envQuiet exampleManifest stHeal exChunk0).synthCalls = stHeal.synthCalls := by
  have h := generator_self_heal envQuiet exampleManifest stHeal exChunk0
  refine ⟨h.1 (by decide) rfl, h.2 (by decide)⟩

def envBadLedger : GenEnv := ⟨fun _ => none, some (.unreadable "garbage"), fun _ => some "ok"⟩

theorem generator_ledger_hard_stop_witness :
    generate_audio_streaming envBadLedger exampleManifest none =
      ({ files := envBadLedger.disk0, ledgerDisk := envBadLedger.ledgerFile0,
         readyChunks := [], synthCalls := [] }, none) :=
  generator_ledger_hard_stop envBadLedger exampleManifest none "garbage" rfl

def stFresh : GenState :=
  { files := fun _ => none, ledgerDisk := none, readyChunks := [], synthCalls := [] }

theorem generator_synth_failure_nonfatal_witness :
    processChunk envQuiet exampleManifest stFresh exChunk0 =
      { stFresh with synthCalls := stFresh.synthCalls ++ [exChunk0.text] } ∧
    (generate_audio_streaming envQuiet exampleManifest none).2 = some exampleManifest.book_id := by
  have h := generator_synth_failure_nonfatal envQuiet exampleManifest stFresh exChunk0 none
  refine ⟨h.1 rfl rfl rfl, h.2 ?_⟩
  intro raw hcontra
  cases hcontra

/-- An environment where the raw extraction cache exists (with title
"My Book") but no citation manifest exists. -/
def envC8 : PipeEnv := ⟨"doc", some (some "My Book"), fun _ => false, true, true⟩

/-- **C8 counterexample**: with a raw Extraction cache present and no
CitationManifest, `run_full_pipeline` still runs Extraction (`process_pdf`),
contradicting the claim that only Extraction is skipped in this situation. -/
theorem orchestrator_counterexample :
    envC8.rawCacheTitle.isSome = true ∧
    envC8.citationExists (potentialCitationName envC8) = false ∧
    (run_full_pipeline envC8).ranExtraction = true :=
  ⟨rfl, rfl, rfl⟩

/-- **C8 amended**: the orchestrator skips Extraction exactly when the probed
CitationManifest exists (in which case Chunking is skipped too and Generation
runs); when the manifest is absent it always re-runs Extraction — even when a
raw Extraction cache exists, that cache is used only to derive the book id —
and then runs Chunking if Extraction succeeded. -/
theorem orchestrator_cache_behavior (env : PipeEnv) :
    (run_full_pipeline env).ranExtraction
      = !(env.citationExists (potentialCitationName env)) ∧
    (run_full_pipeline env).ranChunking
      = (!(env.citationExists (potentialCitationName env)) && env.stage1Ok) ∧
    (env.citationExists (potentialCitationName env) = true →
      run_full_pipeline env = ⟨false, false, true⟩) := by
  unfold run_full_pipeline
  cases h : env.citationExists (potentialCitationName env) <;>
    cases h1 : env.stage1Ok <;> cases h2 : env.stage2Ok <;> simp [h, h1, h2]

def envHit : PipeEnv := ⟨"doc", none, fun _ => true, false, false⟩

theorem orchestrator_cache_behavior_witness :
    run_full_pipeline envHit = ⟨false, false, true⟩ ∧
    (run_full_pipeline envC8).ranExtraction
      = !(envC8.citationExists (potentialCitationName envC8)) := by
  exact ⟨(orchestrator_cache_behavior envHit).2.2 rfl, (orchestrator_cache_behavior envC8).1⟩

theorem chunker_greedy_rule_witness :
    (processBlock 15 1 0 (splitSentences "Hello world. This is a test! Another sentence?")
        ⟨[], 0, 0⟩).tts_chunks.map (fun c => c.sentences.map SentenceData.text)
      = greedyChunks 15
          (cleanSentences (splitSentences "Hello world. This is a test! Another sentence?")) := by
  obtain ⟨new, e1, e2, e3, e4⟩ :=
    chunker_greedy_rule 15 1 0 (splitSentences "Hello world. This is a test! Another sentence?")
      ⟨[], 0, 0⟩
  rw [e1]
  simpa using e2
